import Mathlib

/-!
Verification of the MaplatAffine core (affine transform estimation and
application, RMSE scoring, CRS selection) against its design description.

The TypeScript sources are shallowly embedded over the real numbers:
floating-point arithmetic is modelled by exact real arithmetic, thrown
exceptions by `Except Err`, and the mathjs matrix routines by the
corresponding Mathlib matrix operations (`transpose`, `*`, `mulVec`,
nonsingular inverse; `math.inv` raises on a singular matrix, modelled by
the determinant-zero test, which in exact arithmetic is the singularity
condition).
-/

namespace MaplatAffine

/-- A 2-D point `[x, y]` (GeoJSON `Position`, used as an ordered pair). -/
abbrev Point := ℝ × ℝ

/-- The affine parameter 6-tuple `[A, B, C, D, E, F]` defining
`X = A·x + B·y + C`, `Y = D·x + E·y + F` (src/interface.ts). -/
structure AffineParams where
  A : ℝ
  B : ℝ
  C : ℝ
  D : ℝ
  E : ℝ
  F : ℝ

/-- The distinct throw sites of the core, by kind (spec section 7).
The TypeScript code throws `Error` with distinct messages; the kinds are
modelled as constructors. -/
inductive Err where
  | insufficientPoints
  | lengthMismatch
  | unknownMode
  | degenerateGeometry
  | singularFit
  | singularTransform
  | emptyReduce
deriving DecidableEq

/-- The `1e-15` numeric singularity threshold used in src/transform.ts
(determinant test) and src/compute.ts (`bigC` test). -/
noncomputable def epsTol : ℝ := 1 / 10 ^ 15

/-- `forwardAffine` (src/transform.ts, lines 12-22):
`X = A*x + B*y + C`, `Y = D*x + E*y + F`. -/
noncomputable def forwardAffine (params : AffineParams) (imagePoint : Point) : Point :=
  (params.A * imagePoint.1 + params.B * imagePoint.2 + params.C,
   params.D * imagePoint.1 + params.E * imagePoint.2 + params.F)

/-- `inverseAffine` (src/transform.ts, lines 32-54): computes
`det = A*E - B*D`, throws when `|det| < 1e-15`, otherwise returns
`x = (E*(X-C) - B*(Y-F))/det`, `y = (-D*(X-C) + A*(Y-F))/det`. -/
noncomputable def inverseAffine (params : AffineParams) (mapPoint : Point) : Except Err Point :=
  let det := params.A * params.E - params.B * params.D
  if |det| < epsTol then .error .singularTransform
  else
    let Xc := mapPoint.1 - params.C
    let Yf := mapPoint.2 - params.F
    .ok ((params.E * Xc - params.B * Yf) / det,
         (-params.D * Xc + params.A * Yf) / det)

/-- The `sumSqDiff` accumulation loop of `computeRMSE`
(src/rmse.ts, lines 22-27): `Σ (dx*dx + dy*dy)` over index-paired points. -/
noncomputable def sumSqDiff (pairs : List (Point × Point)) : ℝ :=
  pairs.foldl
    (fun acc q =>
      acc + ((q.1.1 - q.2.1) * (q.1.1 - q.2.1) + (q.1.2 - q.2.2) * (q.1.2 - q.2.2)))
    0

/-- `computeRMSE` (src/rmse.ts, lines 10-32): throws on empty or
mismatched lengths, otherwise `sqrt(sumSqDiff / n)`. -/
noncomputable def computeRMSE (observedPoints predictedPoints : List Point) : Except Err ℝ :=
  let n := observedPoints.length
  if n = 0 ∨ n ≠ predictedPoints.length then .error .lengthMismatch
  else .ok (Real.sqrt (sumSqDiff (observedPoints.zip predictedPoints) / (n : ℝ)))

/-- `Math.atan2(y, x)`: the principal-value angle of the point `(x, y)` in
`(-π, π]`, with `atan2 0 0 = 0` — the argument of the complex number
`x + y·i`. -/
noncomputable def atan2 (y x : ℝ) : ℝ := Complex.arg ⟨x, y⟩

/-- `flipY` (src/compute.ts, lines 252-254): negate every image `y`. -/
noncomputable def flipY (imgPts : List Point) : List Point :=
  imgPts.map (fun pt => (pt.1, -pt.2))

/-- `convertFlipParam` (src/compute.ts, lines 273-300): negate the `B` and
`E` coefficients, keep `A, C, D, F`. -/
noncomputable def convertFlipParam (paramFlip : AffineParams) : AffineParams :=
  ⟨paramFlip.A, -paramFlip.B, paramFlip.C, paramFlip.D, -paramFlip.E, paramFlip.F⟩

/-- `sumOfSquaredResiduals` (src/compute.ts, lines 391-409):
`Σ (X−Xpred)² + (Y−Ypred)²` over index-paired points. -/
noncomputable def sumOfSquaredResiduals (affine : AffineParams) (imgPts mapPts : List Point) : ℝ :=
  (imgPts.zip mapPts).foldl
    (fun acc q =>
      let Xp := affine.A * q.1.1 + affine.B * q.1.2 + affine.C
      let Yp := affine.D * q.1.1 + affine.E * q.1.2 + affine.F
      acc + ((q.2.1 - Xp) * (q.2.1 - Xp) + (q.2.2 - Yp) * (q.2.2 - Yp)))
    0

/-- The design matrix `M` built from the pushed `(row, target)` pairs of
compute.ts: entry `(k, j)` is component `j` of row `k`. -/
noncomputable def designMatrix {m : ℕ} (rows : List ((Fin m → ℝ) × ℝ)) :
    Matrix (Fin rows.length) (Fin m) ℝ :=
  Matrix.of fun k j => (rows.get k).1 j

/-- The observation vector `V` paired with the design matrix rows. -/
noncomputable def obsVector {m : ℕ} (rows : List ((Fin m → ℝ) × ℝ)) : Fin rows.length → ℝ :=
  fun k => (rows.get k).2

/-- The normal-equation solve `p = (MᵀM)⁻¹ (MᵀV)` shared by `computeAffine6`
and `computeNoShearCore` (src/compute.ts, lines 93-101 and 371-378).
`math.inv` raises on a singular `MᵀM`, which in exact arithmetic is
`det (MᵀM) = 0`. -/
noncomputable def solveNormal {m : ℕ} (rows : List ((Fin m → ℝ) × ℝ)) :
    Except Err (Fin m → ℝ) :=
  let M := designMatrix rows
  let MtM := M.transpose * M
  let MtV := M.transpose.mulVec (obsVector rows)
  if MtM.det = 0 then .error .singularFit
  else .ok (MtM⁻¹.mulVec MtV)

/-- The two rows each point contributes in `computeAffine6`
(src/compute.ts, lines 80-91): `[x, y, 1, 0, 0, 0] → X` and
`[0, 0, 0, x, y, 1] → Y`. -/
noncomputable def affine6Rows (pts : List (Point × Point)) : List ((Fin 6 → ℝ) × ℝ) :=
  pts.flatMap (fun q =>
    [(![q.1.1, q.1.2, 1, 0, 0, 0], q.2.1),
     (![0, 0, 0, q.1.1, q.1.2, 1], q.2.2)])

/-- `computeAffine6` (src/compute.ts, lines 67-111): unconstrained
6-parameter least squares. -/
noncomputable def computeAffine6 (imgPts mapPts : List Point) : Except Err AffineParams := do
  let p ← solveNormal (affine6Rows (imgPts.zip mapPts))
  .ok ⟨p 0, p 1, p 2, p 3, p 4, p 5⟩

/-- The two rows each point contributes in `computeNoShearCore`
(src/compute.ts, lines 358-369): `[x, 1, 0] → X` and `[y, 0, 1] → Y`. -/
noncomputable def noShearRows (pts : List (Point × Point)) : List ((Fin 3 → ℝ) × ℝ) :=
  pts.flatMap (fun q =>
    [(![q.1.1, 1, 0], q.2.1),
     (![q.1.2, 0, 1], q.2.2)])

/-- `computeNoShearCore` (src/compute.ts, lines 349-386): constrained fit
`X = A*x + C`, `Y = A*y + F` for `(A, C, F)`; reports `(A, 0, C, 0, A, F)`. -/
noncomputable def computeNoShearCore (imgPts mapPts : List Point) : Except Err AffineParams := do
  let p ← solveNormal (noShearRows (imgPts.zip mapPts))
  .ok ⟨p 0, 0, p 1, 0, p 0, p 2⟩

/-- `computeSimilarCore` (src/compute.ts, lines 173-247): closed-form 2-D
Procrustes fit — centroids, `bigA = Σ(x'X'+y'Y')`, `bigB = Σ(x'Y'−y'X')`,
`bigC = Σ(x'²+y'²)`, `θ = atan2(bigB, bigA)`, `s = sqrt(bigA²+bigB²)/bigC` —
throwing when `|bigC| < 1e-15`. -/
noncomputable def computeSimilarCore (imgPts mapPts : List Point) : Except Err AffineParams :=
  let n : ℝ := (imgPts.length : ℝ)
  let pts := imgPts.zip mapPts
  let cxImg := (pts.foldl (fun a q => a + q.1.1) 0) / n
  let cyImg := (pts.foldl (fun a q => a + q.1.2) 0) / n
  let cxMap := (pts.foldl (fun a q => a + q.2.1) 0) / n
  let cyMap := (pts.foldl (fun a q => a + q.2.2) 0) / n
  let bigA := pts.foldl (fun a q =>
    a + ((q.1.1 - cxImg) * (q.2.1 - cxMap) + (q.1.2 - cyImg) * (q.2.2 - cyMap))) 0
  let bigB := pts.foldl (fun a q =>
    a + ((q.1.1 - cxImg) * (q.2.2 - cyMap) - (q.1.2 - cyImg) * (q.2.1 - cxMap))) 0
  let bigC := pts.foldl (fun a q =>
    a + ((q.1.1 - cxImg) * (q.1.1 - cxImg) + (q.1.2 - cyImg) * (q.1.2 - cyImg))) 0
  if |bigC| < epsTol then .error .degenerateGeometry
  else
    let theta := atan2 bigB bigA
    let norm := Real.sqrt (bigA * bigA + bigB * bigB)
    let s := norm / bigC
    let cosT := Real.cos theta
    let sinT := Real.sin theta
    let rx := cosT * cxImg - sinT * cyImg
    let ry := sinT * cxImg + cosT * cyImg
    let tx := cxMap - s * rx
    let ty := cyMap - s * ry
    .ok ⟨s * cosT, -(s * sinT), tx, s * sinT, s * cosT, ty⟩

/-- `computeSimilarAsAffine` (src/compute.ts, lines 118-167): unflipped and
flipped core fits, then the `same`/`opposite`/`auto` (default) selection. -/
noncomputable def computeSimilarAsAffine (imgPts mapPts : List Point) (yAxisMode : String) :
    Except Err AffineParams := do
  let paramNoFlip ← computeSimilarCore imgPts mapPts
  let paramFlip ← computeSimilarCore (flipY imgPts) mapPts
  if yAxisMode = "same" then
    .ok paramNoFlip
  else if yAxisMode = "opposite" then
    .ok (convertFlipParam paramFlip)
  else
    let paramA := paramNoFlip
    let errA := sumOfSquaredResiduals paramA imgPts mapPts
    let paramB := convertFlipParam paramFlip
    let errB := sumOfSquaredResiduals paramB imgPts mapPts
    .ok (if errA ≤ errB then paramA else paramB)

/-- `computeNoShearAsAffine` (src/compute.ts, lines 308-340): unflipped and
flipped core fits, then the `same`/`opposite`/`auto` (default) selection. -/
noncomputable def computeNoShearAsAffine (imgPts mapPts : List Point) (yAxisMode : String) :
    Except Err AffineParams := do
  let paramA ← computeNoShearCore imgPts mapPts
  let paramFlip ← computeNoShearCore (flipY imgPts) mapPts
  let paramB := convertFlipParam paramFlip
  if yAxisMode = "same" then
    .ok paramA
  else if yAxisMode = "opposite" then
    .ok paramB
  else
    let errA := sumOfSquaredResiduals paramA imgPts mapPts
    let errB := sumOfSquaredResiduals paramB imgPts mapPts
    .ok (if errA ≤ errB then paramA else paramB)

/-- `computeTransformParams` (src/compute.ts, lines 31-62). TypeScript erases
the `TransformMode`/`YAxisMode` union types at runtime, so the modes are
modelled as strings with the source's `switch` defaults: an unrecognized
`mode` throws, an unrecognized `yAxisMode` behaves as `auto`. -/
noncomputable def computeTransformParams (imagePoints mapPoints : List Point)
    (mode yAxisMode : String) : Except Err AffineParams :=
  if imagePoints.length < 2 then .error .insufficientPoints
  else if mapPoints.length ≠ imagePoints.length then .error .lengthMismatch
  else if mode = "affine" then computeAffine6 imagePoints mapPoints
  else if mode = "similar" then computeSimilarAsAffine imagePoints mapPoints yAxisMode
  else if mode = "noshear" then computeNoShearAsAffine imagePoints mapPoints yAxisMode
  else .error .unknownMode

/-- The insertion-ordered, duplicate-free key list of a JavaScript object
populated by assignments `o[c] = …` over the candidate list — the
`Object.keys` order for non-index string keys. -/
def objKeys (crses : List String) : List String :=
  crses.foldl (fun acc c => if c ∈ acc then acc else acc ++ [c]) []

/-- One iteration of the `findBestCRS` candidate loop
(src/find_best.ts, lines 31-54), with the external projection engine
abstracted as the parameter `proj` (spec section 6): project the
geographic points into the candidate CRS, fit the transform with the
image points as the image side, predict with `forwardAffine`, and score
with `computeRMSE` against the projected points. -/
noncomputable def crsStep (proj : String → Point → Point)
    (lnglatPoints imagePoints : List Point) (mode yAxisMode : String)
    (crs : String) : Except Err ℝ := do
  let mapPts := lnglatPoints.map (proj crs)
  let params ← computeTransformParams imagePoints mapPts mode yAxisMode
  let assumed := imagePoints.map (fun pt => forwardAffine params pt)
  computeRMSE mapPts assumed

/-- The `rmse[·]` object lookup used in the final reduce of `findBestCRS`
(src/find_best.ts, line 57): first-match association-list lookup. -/
noncomputable def lookupScore (pairs : List (String × ℝ)) (c : String) : ℝ :=
  (pairs.lookup c).getD 0

/-- `findBestCRS` (src/find_best.ts, lines 13-58): the length check, the
per-candidate loop (any per-candidate failure propagates), then
`Object.keys(rmse).reduce((a, b) => rmse[a] < rmse[b] ? a : b)` — a
no-initial-value reduce, which throws on an empty key set. -/
noncomputable def findBestCRS (proj : String → Point → Point)
    (lnglatPoints imagePoints : List Point) (crses : List String)
    (mode yAxisMode : String) : Except Err String :=
  if lnglatPoints.length ≠ imagePoints.length then .error .lengthMismatch
  else do
    let pairs ← crses.mapM (fun c =>
      (crsStep proj lnglatPoints imagePoints mode yAxisMode c).map (fun r => (c, r)))
    match objKeys crses with
    | [] => .error .emptyReduce
    | k :: ks =>
      .ok (ks.foldl (fun a b => if lookupScore pairs a < lookupScore pairs b then a else b) k)

/-- Folding `+ f` over a list from `c` is `c` plus the sum of the mapped list. -/
theorem foldl_add_map_sum {α : Type} (f : α → ℝ) (l : List α) (c : ℝ) :
    l.foldl (fun acc q => acc + f q) c = c + (l.map f).sum := by
  induction l generalizing c with
  | nil => simp
  | cons x xs ih => simp [ih, add_assoc]

/-- Zipping a list with itself pairs each element with itself. -/
theorem zip_self_eq {α : Type} (l : List α) : l.zip l = l.map (fun x => (x, x)) := by
  induction l with
  | nil => rfl
  | cons x xs ih => simp [List.zip_cons_cons, ih]

/-- C1: for every `AffineParams` whose determinant `A*E − B*D` has absolute
value at least `1e-15` and every point, `inverseAffine` applied to
`forwardAffine` of the point returns exactly the original point
(exact real arithmetic). -/
theorem c1_inverse_forward_round_trip (p : AffineParams) (pt : Point)
    (h : epsTol ≤ |p.A * p.E - p.B * p.D|) :
    inverseAffine p (forwardAffine p pt) = .ok pt := by
  have heps : (0 : ℝ) < epsTol := by norm_num [epsTol]
  have hdet : p.A * p.E - p.B * p.D ≠ 0 := by
    intro h0
    rw [h0, abs_zero] at h
    exact absurd (lt_of_lt_of_le heps h) (lt_irrefl 0)
  simp only [inverseAffine, forwardAffine]
  rw [if_neg (not_lt.mpr h)]
  have h1 : (p.E * (p.A * pt.1 + p.B * pt.2 + p.C - p.C)
      - p.B * (p.D * pt.1 + p.E * pt.2 + p.F - p.F)) / (p.A * p.E - p.B * p.D) = pt.1 := by
    field_simp
    ring
  have h2 : (-p.D * (p.A * pt.1 + p.B * pt.2 + p.C - p.C)
      + p.A * (p.D * pt.1 + p.E * pt.2 + p.F - p.F)) / (p.A * p.E - p.B * p.D) = pt.2 := by
    field_simp
    ring
  rw [h1, h2]

/-- Witness for C1 at concrete input: params `(2,0,0,0,1,0)` (determinant 2)
and point `(3,4)`. -/
theorem c1_witness :
    epsTol ≤ |(2 : ℝ) * 1 - 0 * 0| ∧
    inverseAffine ⟨2, 0, 0, 0, 1, 0⟩ (forwardAffine ⟨2, 0, 0, 0, 1, 0⟩ (3, 4)) = .ok (3, 4) := by
  refine ⟨by norm_num [epsTol], ?_⟩
  exact c1_inverse_forward_round_trip ⟨2, 0, 0, 0, 1, 0⟩ (3, 4) (by norm_num [epsTol])

/-- C7: `inverseAffine` fails with the singular-transform error exactly when
`|A*E − B*D| < 1e-15`, and otherwise returns exactly the closed-form
inverse `((E*(X−C) − B*(Y−F))/det, (−D*(X−C) + A*(Y−F))/det)`. -/
theorem c7_inverseAffine_spec (p : AffineParams) (X Y : ℝ) :
    (inverseAffine p (X, Y) = .error .singularTransform ↔
      |p.A * p.E - p.B * p.D| < epsTol) ∧
    (¬ |p.A * p.E - p.B * p.D| < epsTol →
      inverseAffine p (X, Y) =
        .ok ((p.E * (X - p.C) - p.B * (Y - p.F)) / (p.A * p.E - p.B * p.D),
             (-p.D * (X - p.C) + p.A * (Y - p.F)) / (p.A * p.E - p.B * p.D))) := by
  constructor
  · constructor
    · intro h
      by_contra hlt
      simp only [inverseAffine] at h
      rw [if_neg hlt] at h
      exact absurd h (by simp)
    · intro hlt
      simp only [inverseAffine]
      rw [if_pos hlt]
  · intro hlt
    simp only [inverseAffine]
    rw [if_neg hlt]

/-- Witness for C7 at concrete input: identity params, point `(5,7)`. -/
theorem c7_witness :
    (¬ |(1 : ℝ) * 1 - 0 * 0| < epsTol) ∧
    inverseAffine ⟨1, 0, 0, 0, 1, 0⟩ ((5 : ℝ), (7 : ℝ)) =
      .ok (((1 : ℝ) * (5 - 0) - 0 * (7 - 0)) / ((1 : ℝ) * 1 - 0 * 0),
           (-(0 : ℝ) * (5 - 0) + 1 * (7 - 0)) / ((1 : ℝ) * 1 - 0 * 0)) := by
  refine ⟨by norm_num [epsTol], ?_⟩
  exact (c7_inverseAffine_spec ⟨1, 0, 0, 0, 1, 0⟩ 5 7).2 (by norm_num [epsTol])

/-- C8: `computeRMSE` fails with the length-mismatch error exactly when the
lengths differ or are zero; on equal nonzero lengths it returns exactly
`sqrt((Σ (dxᵢ² + dyᵢ²)) / n)`; `computeRMSE P P = 0` for nonempty `P`; and
every returned value is nonnegative. -/
theorem c8_computeRMSE_spec (obs pred : List Point) :
    (computeRMSE obs pred = .error .lengthMismatch ↔
      obs.length ≠ pred.length ∨ obs.length = 0) ∧
    (obs.length = pred.length → obs.length ≠ 0 →
      computeRMSE obs pred =
        .ok (Real.sqrt
          (((obs.zip pred).map
            (fun q => (q.1.1 - q.2.1) ^ 2 + (q.1.2 - q.2.2) ^ 2)).sum / (obs.length : ℝ)))) ∧
    (obs ≠ [] → computeRMSE obs obs = .ok 0) ∧
    (∀ v, computeRMSE obs pred = .ok v → 0 ≤ v) := by
  have hsum : ∀ l : List (Point × Point),
      sumSqDiff l = (l.map (fun q => (q.1.1 - q.2.1) ^ 2 + (q.1.2 - q.2.2) ^ 2)).sum := by
    intro l
    rw [sumSqDiff, foldl_add_map_sum, zero_add]
    congr 1
    refine List.map_congr_left (fun q _ => ?_)
    ring
  refine ⟨?_, ?_, ?_, ?_⟩
  · constructor
    · intro h
      by_contra hcond
      push_neg at hcond
      simp only [computeRMSE] at h
      rw [if_neg (by tauto)] at h
      exact absurd h (by simp)
    · intro hcond
      simp only [computeRMSE]
      rw [if_pos (by tauto)]
  · intro hlen hne
    simp only [computeRMSE]
    rw [if_neg (by tauto), hsum]
  · intro hne
    have hzero : sumSqDiff (obs.zip obs) = 0 := by
      rw [hsum, zip_self_eq, List.map_map]
      have : ((fun q : Point × Point => (q.1.1 - q.2.1) ^ 2 + (q.1.2 - q.2.2) ^ 2) ∘
          fun x : Point => (x, x)) = fun _ : Point => (0 : ℝ) := by
        funext x
        simp
      rw [this]
      simp
    simp only [computeRMSE]
    rw [if_neg (by simp [hne])]
    rw [hzero, zero_div, Real.sqrt_zero]
  · intro v hv
    simp only [computeRMSE] at hv
    by_cases hcond : obs.length = 0 ∨ obs.length ≠ pred.length
    · rw [if_pos hcond] at hv
      exact absurd hv (by simp)
    · rw [if_neg hcond] at hv
      have := (Except.ok.injEq _ _).mp hv
      rw [← this]
      exact Real.sqrt_nonneg _

/-- Witness for C8 at concrete inputs: `P = [(1,2)]` against itself. -/
theorem c8_witness :
    (([((1 : ℝ), (2 : ℝ))] : List Point) ≠ []) ∧
    computeRMSE [((1 : ℝ), (2 : ℝ))] [((1 : ℝ), (2 : ℝ))] = .ok 0 ∧
    (∀ v, computeRMSE [((1 : ℝ), (2 : ℝ))] [((1 : ℝ), (2 : ℝ))] = .ok v → 0 ≤ v) := by
  refine ⟨by simp, ?_, ?_⟩
  · exact (c8_computeRMSE_spec [((1 : ℝ), (2 : ℝ))] [((1 : ℝ), (2 : ℝ))]).2.2.1 (by simp)
  · exact (c8_computeRMSE_spec [((1 : ℝ), (2 : ℝ))] [((1 : ℝ), (2 : ℝ))]).2.2.2

/-- Folding `+ f` over a list preserves nonnegativity when `f` is nonnegative. -/
theorem foldl_add_nonneg {α : Type} (f : α → ℝ) (hf : ∀ x, 0 ≤ f x) (l : List α) (c : ℝ)
    (hc : 0 ≤ c) : 0 ≤ l.foldl (fun a x => a + f x) c := by
  induction l generalizing c with
  | nil => simpa
  | cons x xs ih => exact ih _ (add_nonneg hc (hf x))

/-- A successful `computeNoShearCore` result has the reported constrained
shape `(A, 0, C, 0, A, F)`. -/
theorem computeNoShearCore_shape (imgPts mapPts : List Point) (p : AffineParams)
    (h : computeNoShearCore imgPts mapPts = .ok p) :
    p.B = 0 ∧ p.D = 0 ∧ p.E = p.A := by
  rcases hs : solveNormal (noShearRows (imgPts.zip mapPts)) with e | s
  · simp [computeNoShearCore, hs, Bind.bind, Except.bind] at h
  · simp only [computeNoShearCore, hs, Bind.bind, Except.bind] at h
    rw [Except.ok.injEq] at h
    rw [← h]
    exact ⟨rfl, rfl, rfl⟩

/-- A successful `computeSimilarCore` result has the similarity shape
`(s·cosθ, −s·sinθ, tx, s·sinθ, s·cosθ, ty)` with `s ≥ 0`. -/
theorem computeSimilarCore_shape (imgPts mapPts : List Point) (p : AffineParams)
    (h : computeSimilarCore imgPts mapPts = .ok p) :
    ∃ s θ, 0 ≤ s ∧ p.A = s * Real.cos θ ∧ p.B = -(s * Real.sin θ) ∧
      p.D = s * Real.sin θ ∧ p.E = s * Real.cos θ := by
  simp only [computeSimilarCore] at h
  split at h
  · simp at h
  · rw [Except.ok.injEq] at h
    rw [← h]
    refine ⟨_, _, ?_, rfl, rfl, rfl, rfl⟩
    refine div_nonneg (Real.sqrt_nonneg _) ?_
    exact foldl_add_nonneg _
      (fun q => add_nonneg (mul_self_nonneg _) (mul_self_nonneg _)) _ _ le_rfl

/-- Branch analysis of a successful `computeSimilarAsAffine` call: both core
fits succeeded, and the result is selected by the `yAxisMode` switch. -/
theorem computeSimilarAsAffine_branches (imgPts mapPts : List Point) (yax : String)
    (r : AffineParams) (h : computeSimilarAsAffine imgPts mapPts yax = .ok r) :
    ∃ pA pF, computeSimilarCore imgPts mapPts = .ok pA ∧
      computeSimilarCore (flipY imgPts) mapPts = .ok pF ∧
      ((yax = "same" ∧ r = pA) ∨
       (yax ≠ "same" ∧ yax = "opposite" ∧ r = convertFlipParam pF) ∨
       (yax ≠ "same" ∧ yax ≠ "opposite" ∧
        r = if sumOfSquaredResiduals pA imgPts mapPts ≤
              sumOfSquaredResiduals (convertFlipParam pF) imgPts mapPts
            then pA else convertFlipParam pF)) := by
  rcases hA : computeSimilarCore imgPts mapPts with e | pA
  · simp [computeSimilarAsAffine, hA, Bind.bind, Except.bind] at h
  · rcases hF : computeSimilarCore (flipY imgPts) mapPts with e | pF
    · simp [computeSimilarAsAffine, hA, hF, Bind.bind, Except.bind] at h
    · simp only [computeSimilarAsAffine, hA, hF, Bind.bind, Except.bind] at h
      refine ⟨pA, pF, rfl, rfl, ?_⟩
      by_cases h1 : yax = "same"
      · rw [if_pos h1, Except.ok.injEq] at h
        exact .inl ⟨h1, h.symm⟩
      · rw [if_neg h1] at h
        by_cases h2 : yax = "opposite"
        · rw [if_pos h2, Except.ok.injEq] at h
          exact .inr (.inl ⟨h1, h2, h.symm⟩)
        · rw [if_neg h2, Except.ok.injEq] at h
          exact .inr (.inr ⟨h1, h2, h.symm⟩)

/-- Branch analysis of a successful `computeNoShearAsAffine` call: both core
fits succeeded, and the result is selected by the `yAxisMode` switch. -/
theorem computeNoShearAsAffine_branches (imgPts mapPts : List Point) (yax : String)
    (r : AffineParams) (h : computeNoShearAsAffine imgPts mapPts yax = .ok r) :
    ∃ pA pF, computeNoShearCore imgPts mapPts = .ok pA ∧
      computeNoShearCore (flipY imgPts) mapPts = .ok pF ∧
      ((yax = "same" ∧ r = pA) ∨
       (yax ≠ "same" ∧ yax = "opposite" ∧ r = convertFlipParam pF) ∨
       (yax ≠ "same" ∧ yax ≠ "opposite" ∧
        r = if sumOfSquaredResiduals pA imgPts mapPts ≤
              sumOfSquaredResiduals (convertFlipParam pF) imgPts mapPts
            then pA else convertFlipParam pF)) := by
  rcases hA : computeNoShearCore imgPts mapPts with e | pA
  · simp [computeNoShearAsAffine, hA, Bind.bind, Except.bind] at h
  · rcases hF : computeNoShearCore (flipY imgPts) mapPts with e | pF
    · simp [computeNoShearAsAffine, hA, hF, Bind.bind, Except.bind] at h
    · simp only [computeNoShearAsAffine, hA, hF, Bind.bind, Except.bind] at h
      refine ⟨pA, pF, rfl, rfl, ?_⟩
      by_cases h1 : yax = "same"
      · rw [if_pos h1, Except.ok.injEq] at h
        exact .inl ⟨h1, h.symm⟩
      · rw [if_neg h1] at h
        by_cases h2 : yax = "opposite"
        · rw [if_pos h2, Except.ok.injEq] at h
          exact .inr (.inl ⟨h1, h2, h.symm⟩)
        · rw [if_neg h2, Except.ok.injEq] at h
          exact .inr (.inr ⟨h1, h2, h.symm⟩)

/-- A successful `computeTransformParams` call in `similar` mode reduces to
`computeSimilarAsAffine`, and in `noshear` mode to `computeNoShearAsAffine`. -/
theorem computeTransformParams_mode_reduction (imgPts mapPts : List Point)
    (mode yax : String) (r : AffineParams)
    (h : computeTransformParams imgPts mapPts mode yax = .ok r) :
    (mode = "similar" → computeSimilarAsAffine imgPts mapPts yax = .ok r) ∧
    (mode = "noshear" → computeNoShearAsAffine imgPts mapPts yax = .ok r) := by
  simp only [computeTransformParams] at h
  constructor
  · intro hm
    subst hm
    split at h
    · simp at h
    · split at h
      · simp at h
      · rw [if_neg (by decide), if_pos rfl] at h
        exact h
  · intro hm
    subst hm
    split at h
    · simp at h
    · split at h
      · simp at h
      · rw [if_neg (by decide), if_neg (by decide), if_pos rfl] at h
        exact h

/-- C9: the precondition checks of `computeTransformParams`: fewer than 2
image points throws the insufficient-points error; both sides of length ≥ 2
but unequal throws the length-mismatch error; equal lengths ≥ 2 with an
unrecognized mode string throws the unknown-mode error. -/
theorem c9_computeTransformParams_precondition_errors
    (imagePoints mapPoints : List Point) (mode yAxisMode : String) :
    (imagePoints.length < 2 →
      computeTransformParams imagePoints mapPoints mode yAxisMode =
        .error .insufficientPoints) ∧
    (2 ≤ imagePoints.length → 2 ≤ mapPoints.length →
      imagePoints.length ≠ mapPoints.length →
      computeTransformParams imagePoints mapPoints mode yAxisMode =
        .error .lengthMismatch) ∧
    (imagePoints.length = mapPoints.length → 2 ≤ imagePoints.length →
      mode ≠ "affine" → mode ≠ "similar" → mode ≠ "noshear" →
      computeTransformParams imagePoints mapPoints mode yAxisMode =
        .error .unknownMode) := by
  refine ⟨?_, ?_, ?_⟩
  · intro h
    simp only [computeTransformParams]
    rw [if_pos h]
  · intro h2 _ hne
    simp only [computeTransformParams]
    rw [if_neg (not_lt.mpr h2), if_pos (Ne.symm hne)]
  · intro heq h2 ha hs hn
    simp only [computeTransformParams]
    rw [if_neg (not_lt.mpr h2), if_neg (by omega), if_neg ha, if_neg hs, if_neg hn]

/-- Witness for C9 at concrete inputs: a 1-point call, a 2-vs-3-point call,
and a 2-point call with the unrecognized mode string `"bogus"`. -/
theorem c9_witness :
    computeTransformParams [((0 : ℝ), (0 : ℝ))] [] "affine" "auto" =
      .error .insufficientPoints ∧
    computeTransformParams [((0 : ℝ), (0 : ℝ)), (1, 1)] [(0, 0), (1, 1), (2, 2)]
      "affine" "auto" = .error .lengthMismatch ∧
    computeTransformParams [((0 : ℝ), (0 : ℝ)), (1, 1)] [(0, 0), (1, 1)]
      "bogus" "auto" = .error .unknownMode := by
  refine ⟨?_, ?_, ?_⟩
  · exact (c9_computeTransformParams_precondition_errors _ _ _ _).1 (by simp)
  · exact (c9_computeTransformParams_precondition_errors _ _ _ _).2.1
      (by simp) (by simp) (by simp)
  · exact (c9_computeTransformParams_precondition_errors _ _ _ _).2.2
      (by simp) (by simp) (by decide) (by decide) (by decide)

/-- C4: `convertFlipParam` exactly undoes the Y negation used during fitting
— `forwardAffine (convertFlipParam q) (x, y) = forwardAffine q (x, −y)` for
every parameter tuple and point — and consequently, in `opposite` mode, the
estimator returns the Y-negated core fit converted by `convertFlipParam`
(its `B` and `E` negated, `A, C, D, F` unchanged). -/
theorem c4_convertFlipParam_undoes_flip
    (imgPts mapPts : List Point) (mode : String) (r : AffineParams)
    (hmode : mode = "similar" ∨ mode = "noshear")
    (h : computeTransformParams imgPts mapPts mode "opposite" = .ok r) :
    (∀ (q : AffineParams) (x y : ℝ),
      forwardAffine (convertFlipParam q) (x, y) = forwardAffine q (x, -y)) ∧
    (∃ qF, (if mode = "similar" then computeSimilarCore else computeNoShearCore)
        (flipY imgPts) mapPts = .ok qF ∧ r = convertFlipParam qF) := by
  constructor
  · intro q x y
    simp only [forwardAffine, convertFlipParam, Prod.mk.injEq]
    constructor <;> ring
  · rcases hmode with hm | hm
    · subst hm
      have hred := (computeTransformParams_mode_reduction _ _ _ _ _ h).1 rfl
      obtain ⟨pA, pF, _, hF, hsel⟩ := computeSimilarAsAffine_branches _ _ _ _ hred
      rw [if_pos rfl]
      rcases hsel with ⟨hs, _⟩ | ⟨_, _, hr⟩ | ⟨_, hop, _⟩
      · exact absurd hs (by decide)
      · exact ⟨pF, hF, hr⟩
      · exact absurd rfl hop
    · subst hm
      have hred := (computeTransformParams_mode_reduction _ _ _ _ _ h).2 rfl
      obtain ⟨pA, pF, _, hF, hsel⟩ := computeNoShearAsAffine_branches _ _ _ _ hred
      rw [if_neg (by decide)]
      rcases hsel with ⟨hs, _⟩ | ⟨_, _, hr⟩ | ⟨_, hop, _⟩
      · exact absurd hs (by decide)
      · exact ⟨pF, hF, hr⟩
      · exact absurd rfl hop

/-- C3: in `similar` or `noshear` mode with `auto` Y-axis resolution, a
returned result is exactly the better-scoring — by sum of squared residuals
`Σ(X−Xpred)²+(Y−Ypred)²` against the original unflipped points — of the
unflipped core fit and the flip-converted fit, ties going to the unflipped
candidate. -/
theorem c3_auto_selects_smaller_residual
    (imgPts mapPts : List Point) (mode : String) (r : AffineParams)
    (hmode : mode = "similar" ∨ mode = "noshear")
    (h : computeTransformParams imgPts mapPts mode "auto" = .ok r) :
    ∃ pA pF,
      (if mode = "similar" then computeSimilarCore else computeNoShearCore)
        imgPts mapPts = .ok pA ∧
      (if mode = "similar" then computeSimilarCore else computeNoShearCore)
        (flipY imgPts) mapPts = .ok pF ∧
      r = (if sumOfSquaredResiduals pA imgPts mapPts ≤
            sumOfSquaredResiduals (convertFlipParam pF) imgPts mapPts
          then pA else convertFlipParam pF) := by
  rcases hmode with hm | hm
  · subst hm
    have hred := (computeTransformParams_mode_reduction _ _ _ _ _ h).1 rfl
    obtain ⟨pA, pF, hA, hF, hsel⟩ := computeSimilarAsAffine_branches _ _ _ _ hred
    rw [if_pos rfl]
    rcases hsel with ⟨hs, _⟩ | ⟨_, hop, _⟩ | ⟨_, _, hr⟩
    · exact absurd hs (by decide)
    · exact absurd hop (by decide)
    · exact ⟨pA, pF, hA, hF, hr⟩
  · subst hm
    have hred := (computeTransformParams_mode_reduction _ _ _ _ _ h).2 rfl
    obtain ⟨pA, pF, hA, hF, hsel⟩ := computeNoShearAsAffine_branches _ _ _ _ hred
    rw [if_neg (by decide)]
    rcases hsel with ⟨hs, _⟩ | ⟨_, hop, _⟩ | ⟨_, _, hr⟩
    · exact absurd hs (by decide)
    · exact absurd hop (by decide)
    · exact ⟨pA, pF, hA, hF, hr⟩

/-- C6: a result of `similar` mode with `same` Y-axis resolution has the
similarity form `A = s·cosθ, B = −s·sinθ, D = s·sinθ, E = s·cosθ` with
`s ≥ 0`; in particular `A = E`, `B = −D`, and the determinant
`A·E − B·D = s²` is never negative. -/
theorem c6_similar_same_form (imgPts mapPts : List Point) (r : AffineParams)
    (h : computeTransformParams imgPts mapPts "similar" "same" = .ok r) :
    ∃ s θ, 0 ≤ s ∧ r.A = s * Real.cos θ ∧ r.B = -(s * Real.sin θ) ∧
      r.D = s * Real.sin θ ∧ r.E = s * Real.cos θ ∧ r.A = r.E ∧ r.B = -r.D ∧
      r.A * r.E - r.B * r.D = s ^ 2 ∧ 0 ≤ r.A * r.E - r.B * r.D := by
  have hred := (computeTransformParams_mode_reduction _ _ _ _ _ h).1 rfl
  obtain ⟨pA, pF, hA, _, hsel⟩ := computeSimilarAsAffine_branches _ _ _ _ hred
  have hrA : r = pA := by
    rcases hsel with ⟨_, hr⟩ | ⟨hs, _, _⟩ | ⟨hs, _, _⟩
    · exact hr
    · exact absurd rfl hs
    · exact absurd rfl hs
  subst hrA
  obtain ⟨s, θ, hs, h1, h2, h3, h4⟩ := computeSimilarCore_shape _ _ _ hA
  have hdet : r.A * r.E - r.B * r.D = s ^ 2 := by
    rw [h1, h2, h3, h4]
    linear_combination s ^ 2 * Real.sin_sq_add_cos_sq θ
  refine ⟨s, θ, hs, h1, h2, h3, h4, ?_, ?_, hdet, ?_⟩
  · rw [h1, h4]
  · rw [h2, h3]
  · rw [hdet]
    exact sq_nonneg s

/-- C5 (amended): every parameter tuple returned by `computeTransformParams`
in `noshear` mode has zero second and fourth components; both core fits
succeeded, and the result is either the unflipped core fit, in which case
its fifth component equals the first, or the flip-converted fit, in which
case its fifth component equals the negation of the first. -/
theorem c5_noshear_shape_amended (imgPts mapPts : List Point) (yAxisMode : String)
    (r : AffineParams)
    (h : computeTransformParams imgPts mapPts "noshear" yAxisMode = .ok r) :
    r.B = 0 ∧ r.D = 0 ∧
    ∃ pA pF, computeNoShearCore imgPts mapPts = .ok pA ∧
      computeNoShearCore (flipY imgPts) mapPts = .ok pF ∧
      ((r = pA ∧ r.E = r.A) ∨ (r = convertFlipParam pF ∧ r.E = -r.A)) := by
  have hred := (computeTransformParams_mode_reduction _ _ _ _ _ h).2 rfl
  obtain ⟨pA, pF, hA, hF, hsel⟩ := computeNoShearAsAffine_branches _ _ _ _ hred
  obtain ⟨hA1, hA2, hA3⟩ := computeNoShearCore_shape _ _ _ hA
  obtain ⟨hF1, hF2, hF3⟩ := computeNoShearCore_shape _ _ _ hF
  have hcases : r = pA ∨ r = convertFlipParam pF := by
    rcases hsel with ⟨_, hr⟩ | ⟨_, _, hr⟩ | ⟨_, _, hr⟩
    · exact .inl hr
    · exact .inr hr
    · rw [hr]
      split
      · exact .inl rfl
      · exact .inr rfl
  rcases hcases with hr | hr
  · exact ⟨by rw [hr]; exact hA1, by rw [hr]; exact hA2, pA, pF, hA, hF,
      .inl ⟨hr, by rw [hr]; exact hA3⟩⟩
  · refine ⟨?_, ?_, pA, pF, hA, hF, .inr ⟨hr, ?_⟩⟩
    · rw [hr]
      simpa [convertFlipParam] using hF1
    · rw [hr]
      simpa [convertFlipParam] using hF2
    · rw [hr]
      simp [convertFlipParam, hF3]

/-- C10: with paired point sequences of equal length but an empty candidate
list, `findBestCRS` always throws (the no-initial-value reduce of an empty
key set) and never returns a CRS identifier. -/
theorem c10_findBestCRS_empty_candidates (proj : String → Point → Point)
    (lnglatPoints imagePoints : List Point) (mode yAxisMode : String)
    (h : lnglatPoints.length = imagePoints.length) :
    findBestCRS proj lnglatPoints imagePoints [] mode yAxisMode =
      .error .emptyReduce := by
  simp only [findBestCRS]
  rw [if_neg (by omega)]
  rfl

/-- Witness for C10 at concrete input: empty point lists and an empty
candidate list. -/
theorem c10_witness :
    findBestCRS (fun _ q => q) [] [] [] "affine" "auto" = .error .emptyReduce :=
  c10_findBestCRS_empty_candidates (fun _ q => q) [] [] "affine" "auto" rfl

/-- A successful normal-equation solve is characterized by the solved linear
system: when `det (MᵀM) ≠ 0` and `(MᵀM) x = MᵀV`, the solve returns `x`. -/
theorem solveNormal_eq_ok {m : ℕ} (rows : List ((Fin m → ℝ) × ℝ)) (x : Fin m → ℝ)
    (hdet : ((designMatrix rows).transpose * designMatrix rows).det ≠ 0)
    (hx : ((designMatrix rows).transpose * designMatrix rows).mulVec x =
      (designMatrix rows).transpose.mulVec (obsVector rows)) :
    solveNormal rows = .ok x := by
  simp only [solveNormal]
  rw [if_neg hdet]
  congr 1
  rw [← hx, Matrix.mulVec_mulVec, Matrix.nonsing_inv_mul _ (isUnit_iff_ne_zero.mpr hdet),
    Matrix.one_mulVec]

/-- Concrete evaluation: the no-shear core fit of image points
`(0,0), (1,0)` against map points `(0,0), (2,0)` is `(2, 0, 0, 0, 2, 0)`. -/
theorem eval_noshear_core_A :
    computeNoShearCore [((0 : ℝ), (0 : ℝ)), (1, 0)] [((0 : ℝ), (0 : ℝ)), (2, 0)] =
      .ok ⟨2, 0, 0, 0, 2, 0⟩ := by
  have hMtM : (designMatrix
      [(![(0 : ℝ), 1, 0], (0 : ℝ)), (![0, 0, 1], 0), (![1, 1, 0], 2), (![0, 0, 1], 0)]).transpose *
      designMatrix
      [(![(0 : ℝ), 1, 0], (0 : ℝ)), (![0, 0, 1], 0), (![1, 1, 0], 2), (![0, 0, 1], 0)] =
      !![1, 1, 0; 1, 2, 0; 0, 0, 2] := by
    ext i j
    fin_cases i <;> fin_cases j <;>
      simp [designMatrix, Matrix.mul_apply, Matrix.transpose_apply,
        Fin.sum_univ_four, List.get, show ((0 : Fin 4) : ℕ) = 0 from rfl,
        show ((1 : Fin 4) : ℕ) = 1 from rfl, show ((2 : Fin 4) : ℕ) = 2 from rfl,
        show ((3 : Fin 4) : ℕ) = 3 from rfl]
    all_goals norm_num
  have hMtV : (designMatrix
      [(![(0 : ℝ), 1, 0], (0 : ℝ)), (![0, 0, 1], 0), (![1, 1, 0], 2), (![0, 0, 1], 0)]).transpose.mulVec
      (obsVector
      [(![(0 : ℝ), 1, 0], (0 : ℝ)), (![0, 0, 1], 0), (![1, 1, 0], 2), (![0, 0, 1], 0)]) =
      ![2, 2, 0] := by
    ext i
    fin_cases i <;>
      simp [designMatrix, obsVector, Matrix.mulVec, Matrix.dotProduct,
        Matrix.transpose_apply, Fin.sum_univ_four, List.get,
        show ((0 : Fin 4) : ℕ) = 0 from rfl, show ((1 : Fin 4) : ℕ) = 1 from rfl,
        show ((2 : Fin 4) : ℕ) = 2 from rfl, show ((3 : Fin 4) : ℕ) = 3 from rfl]
  have hsolve : solveNormal
      [(![(0 : ℝ), 1, 0], (0 : ℝ)), (![0, 0, 1], 0), (![1, 1, 0], 2), (![0, 0, 1], 0)] =
      .ok ![2, 0, 0] := by
    refine solveNormal_eq_ok _ ![2, 0, 0] ?_ ?_
    · rw [hMtM, Matrix.det_fin_three]
      norm_num
    · rw [hMtM, hMtV]
      ext i
      fin_cases i <;>
        simp [Matrix.mulVec, Matrix.dotProduct, Fin.sum_univ_three]
  simp only [computeNoShearCore]
  rw [show noShearRows ([((0 : ℝ), (0 : ℝ)), (1, 0)].zip [((0 : ℝ), (0 : ℝ)), (2, 0)]) =
    [(![(0 : ℝ), 1, 0], (0 : ℝ)), (![0, 0, 1], 0), (![1, 1, 0], 2), (![0, 0, 1], 0)] from rfl,
    hsolve]
  simp [Bind.bind, Except.bind]

/-- Concrete evaluation: `flipY` fixes a point list whose `y` are all zero. -/
theorem eval_flipY_A :
    flipY [((0 : ℝ), (0 : ℝ)), (1, 0)] = [((0 : ℝ), (0 : ℝ)), (1, 0)] := by
  simp [flipY]

/-- Concrete evaluation: `noshear` mode with `opposite` Y-axis resolution on
image points `(0,0), (1,0)` and map points `(0,0), (2,0)` gives
`(2, 0, 0, 0, −2, 0)`. -/
theorem eval_noshear_opposite_A :
    computeTransformParams [((0 : ℝ), (0 : ℝ)), (1, 0)] [((0 : ℝ), (0 : ℝ)), (2, 0)]
      "noshear" "opposite" = .ok ⟨2, 0, 0, 0, -2, 0⟩ := by
  simp only [computeTransformParams]
  rw [if_neg (by norm_num), if_neg (by norm_num), if_neg (by decide), if_neg (by decide),
    if_pos trivial]
  simp only [computeNoShearAsAffine, eval_flipY_A, eval_noshear_core_A, Bind.bind, Except.bind]
  simp [convertFlipParam]

/-- Concrete evaluation: the same call with `auto` Y-axis resolution selects
the unflipped candidate `(2, 0, 0, 0, 2, 0)` (both residuals are zero). -/
theorem eval_noshear_auto_A :
    computeTransformParams [((0 : ℝ), (0 : ℝ)), (1, 0)] [((0 : ℝ), (0 : ℝ)), (2, 0)]
      "noshear" "auto" = .ok ⟨2, 0, 0, 0, 2, 0⟩ := by
  simp only [computeTransformParams]
  rw [if_neg (by norm_num), if_neg (by norm_num), if_neg (by decide), if_neg (by decide),
    if_pos trivial]
  simp only [computeNoShearAsAffine, eval_flipY_A, eval_noshear_core_A, Bind.bind, Except.bind]
  rw [if_neg (by decide), if_neg (by decide)]
  have hA : sumOfSquaredResiduals ⟨2, 0, 0, 0, 2, 0⟩
      [((0 : ℝ), (0 : ℝ)), (1, 0)] [((0 : ℝ), (0 : ℝ)), (2, 0)] = 0 := by
    norm_num [sumOfSquaredResiduals]
  have hB : sumOfSquaredResiduals (convertFlipParam ⟨2, 0, 0, 0, 2, 0⟩)
      [((0 : ℝ), (0 : ℝ)), (1, 0)] [((0 : ℝ), (0 : ℝ)), (2, 0)] = 0 := by
    norm_num [sumOfSquaredResiduals, convertFlipParam]
  rw [if_pos (by rw [hA, hB])]

/-- Witness for C3 at concrete input: the `noshear`/`auto` call above, whose
two candidates tie at residual zero and which returns the unflipped fit. -/
theorem c3_witness :
    ∃ pA pF,
      (if "noshear" = "similar" then computeSimilarCore else computeNoShearCore)
        [((0 : ℝ), (0 : ℝ)), (1, 0)] [((0 : ℝ), (0 : ℝ)), (2, 0)] = .ok pA ∧
      (if "noshear" = "similar" then computeSimilarCore else computeNoShearCore)
        (flipY [((0 : ℝ), (0 : ℝ)), (1, 0)]) [((0 : ℝ), (0 : ℝ)), (2, 0)] = .ok pF ∧
      (⟨2, 0, 0, 0, 2, 0⟩ : AffineParams) =
        (if sumOfSquaredResiduals pA [((0 : ℝ), (0 : ℝ)), (1, 0)] [((0 : ℝ), (0 : ℝ)), (2, 0)] ≤
              sumOfSquaredResiduals (convertFlipParam pF)
                [((0 : ℝ), (0 : ℝ)), (1, 0)] [((0 : ℝ), (0 : ℝ)), (2, 0)]
          then pA else convertFlipParam pF) :=
  c3_auto_selects_smaller_residual _ _ "noshear" _ (Or.inr rfl) eval_noshear_auto_A

/-- Witness for C4 at concrete input: the `noshear`/`opposite` call above. -/
theorem c4_witness :
    (∀ (q : AffineParams) (x y : ℝ),
      forwardAffine (convertFlipParam q) (x, y) = forwardAffine q (x, -y)) ∧
    (∃ qF, (if "noshear" = "similar" then computeSimilarCore else computeNoShearCore)
        (flipY [((0 : ℝ), (0 : ℝ)), (1, 0)]) [((0 : ℝ), (0 : ℝ)), (2, 0)] = .ok qF ∧
      (⟨2, 0, 0, 0, -2, 0⟩ : AffineParams) = convertFlipParam qF) :=
  c4_convertFlipParam_undoes_flip _ _ "noshear" _ (Or.inr rfl) eval_noshear_opposite_A

/-- C5 counterexample: the `noshear`/`opposite` call above returns
`(2, 0, 0, 0, −2, 0)`, whose fifth component is the negation of the first,
not the first — refuting the claim that every `noshear` result has the form
`(A, 0, C, 0, A, F)` for every Y-axis mode. -/
theorem c5_counterexample :
    computeTransformParams [((0 : ℝ), (0 : ℝ)), (1, 0)] [((0 : ℝ), (0 : ℝ)), (2, 0)]
      "noshear" "opposite" = .ok ⟨2, 0, 0, 0, -2, 0⟩ ∧
    ¬ ((⟨2, 0, 0, 0, -2, 0⟩ : AffineParams).E = (⟨2, 0, 0, 0, -2, 0⟩ : AffineParams).A) := by
  refine ⟨eval_noshear_opposite_A, ?_⟩
  norm_num

/-- Witness for C5 (amended) at concrete input: the same call, whose result
is the flip-converted fit, with fifth component the negation of the first. -/
theorem c5_witness :
    (⟨2, 0, 0, 0, -2, 0⟩ : AffineParams).B = 0 ∧
    (⟨2, 0, 0, 0, -2, 0⟩ : AffineParams).D = 0 ∧
    ∃ pA pF, computeNoShearCore [((0 : ℝ), (0 : ℝ)), (1, 0)] [((0 : ℝ), (0 : ℝ)), (2, 0)] =
        .ok pA ∧
      computeNoShearCore (flipY [((0 : ℝ), (0 : ℝ)), (1, 0)]) [((0 : ℝ), (0 : ℝ)), (2, 0)] =
        .ok pF ∧
      (((⟨2, 0, 0, 0, -2, 0⟩ : AffineParams) = pA ∧
        (⟨2, 0, 0, 0, -2, 0⟩ : AffineParams).E = (⟨2, 0, 0, 0, -2, 0⟩ : AffineParams).A) ∨
       ((⟨2, 0, 0, 0, -2, 0⟩ : AffineParams) = convertFlipParam pF ∧
        (⟨2, 0, 0, 0, -2, 0⟩ : AffineParams).E = -(⟨2, 0, 0, 0, -2, 0⟩ : AffineParams).A)) :=
  c5_noshear_shape_amended _ _ "opposite" _ eval_noshear_opposite_A

/-- Membership in the key-accumulation fold of `objKeys`. -/
theorem mem_objKeys_foldl (l : List String) (acc : List String) (c : String) :
    c ∈ l.foldl (fun acc c => if c ∈ acc then acc else acc ++ [c]) acc ↔
      c ∈ acc ∨ c ∈ l := by
  induction l generalizing acc with
  | nil => simp
  | cons d ds ih =>
    rw [List.foldl_cons, ih]
    by_cases hd : d ∈ acc
    · simp only [if_pos hd, List.mem_cons]
      constructor
      · rintro (h | h)
        · exact .inl h
        · exact .inr (.inr h)
      · rintro (h | rfl | h)
        · exact .inl h
        · exact .inl hd
        · exact .inr h
    · simp only [if_neg hd, List.mem_append, List.mem_singleton, List.mem_cons]
      tauto

/-- `objKeys` has the same members as the candidate list. -/
theorem mem_objKeys (l : List String) (c : String) : c ∈ objKeys l ↔ c ∈ l := by
  rw [objKeys, mem_objKeys_foldl]
  simp

/-- When the per-candidate loop succeeds, each candidate's score function
value succeeded and equals its stored `rmse[·]` lookup. -/
theorem mapM_lookup_spec (f : String → Except Err ℝ) (l : List String)
    (pairs : List (String × ℝ))
    (h : l.mapM (fun c => (f c).map (fun r => (c, r))) = .ok pairs) :
    ∀ c ∈ l, f c = .ok (lookupScore pairs c) := by
  induction l generalizing pairs with
  | nil =>
    intro c hc
    exact absurd hc (by simp)
  | cons d ds ih =>
    rw [List.mapM_cons] at h
    rcases hd : f d with e | v
    · rw [hd] at h
      simp [Except.map, Bind.bind, Except.bind] at h
    · rw [hd] at h
      rcases hds : ds.mapM (fun c => (f c).map (fun r => (c, r))) with e | rest
      · rw [hds] at h
        simp [Except.map, Bind.bind, Except.bind] at h
      · rw [hds] at h
        simp only [Except.map, Bind.bind, Except.bind, pure, Except.pure,
          Except.ok.injEq] at h
        intro c hc
        by_cases hcd : c = d
        · subst hcd
          rw [hd, ← h]
          simp [lookupScore]
        · rcases List.mem_cons.mp hc with heq | hc'
          · exact absurd heq hcd
          · rw [ih rest hds c hc', ← h]
            simp only [lookupScore, List.lookup_cons]
            rw [show (c == d) = false from beq_eq_false_iff_ne.mpr hcd]

/-- The result of the tie-to-the-right minimizing fold
`(a, b) ↦ if f a < f b then a else b`: either the accumulator survives and
every list element scores strictly above it, or the result splits the list,
scores no worse than the accumulator and every list element, and every
element strictly after it scores strictly above it. -/
theorem foldl_pick_spec (f : String → ℝ) (ks : List String) (a : String) :
    ∃ r, ks.foldl (fun x b => if f x < f b then x else b) a = r ∧
      ((r = a ∧ ∀ x ∈ ks, f a < f x) ∨
       (∃ l1 l2, ks = l1 ++ r :: l2 ∧ f r ≤ f a ∧ (∀ x ∈ l2, f r < f x) ∧
         ∀ x ∈ ks, f r ≤ f x)) := by
  induction ks generalizing a with
  | nil =>
    refine ⟨a, rfl, .inl ⟨rfl, ?_⟩⟩
    intro x hx
    exact absurd hx (by simp)
  | cons b bs ih =>
    by_cases hab : f a < f b
    · obtain ⟨r, hr, hcase⟩ := ih a
      refine ⟨r, by rw [List.foldl_cons, if_pos hab]; exact hr, ?_⟩
      rcases hcase with ⟨req, hall⟩ | ⟨l1, l2, hsplit, hle, hstrict, hallle⟩
      · refine .inl ⟨req, ?_⟩
        intro x hx
        rcases List.mem_cons.mp hx with rfl | hx'
        · exact hab
        · exact hall x hx'
      · refine .inr ⟨b :: l1, l2, by rw [List.cons_append, ← hsplit], hle, hstrict, ?_⟩
        intro x hx
        rcases List.mem_cons.mp hx with rfl | hx'
        · exact le_of_lt (lt_of_le_of_lt hle hab)
        · exact hallle x hx'
    · obtain ⟨r, hr, hcase⟩ := ih b
      refine ⟨r, by rw [List.foldl_cons, if_neg hab]; exact hr, ?_⟩
      have hba : f b ≤ f a := not_lt.mp hab
      rcases hcase with ⟨req, hall⟩ | ⟨l1, l2, hsplit, hle, hstrict, hallle⟩
      · subst req
        refine .inr ⟨[], bs, by simp, hba, hall, ?_⟩
        intro x hx
        rcases List.mem_cons.mp hx with rfl | hx'
        · exact le_rfl
        · exact le_of_lt (hall x hx')
      · refine .inr ⟨b :: l1, l2, by rw [List.cons_append, ← hsplit], le_trans hle hba,
          hstrict, ?_⟩
        intro x hx
        rcases List.mem_cons.mp hx with rfl | hx'
        · exact hle
        · exact hallle x hx'

/-- Components of a successful `findBestCRS` call: the length check passed,
the candidate loop succeeded with stored pairs, and the result is the reduce
over the nonempty key list. -/
theorem findBestCRS_ok_components (proj : String → Point → Point)
    (geo loc : List Point) (crses : List String) (mode yax : String) (r : String)
    (h : findBestCRS proj geo loc crses mode yax = .ok r) :
    ∃ pairs, crses.mapM
        (fun c => (crsStep proj geo loc mode yax c).map (fun v => (c, v))) = .ok pairs ∧
      ∃ k ks, objKeys crses = k :: ks ∧
        r = ks.foldl
          (fun a b => if lookupScore pairs a < lookupScore pairs b then a else b) k := by
  simp only [findBestCRS] at h
  by_cases hlen : geo.length ≠ loc.length
  · rw [if_pos hlen] at h
    exact absurd h (by simp)
  · rw [if_neg hlen] at h
    rcases hm : crses.mapM
        (fun c => (crsStep proj geo loc mode yax c).map (fun v => (c, v))) with e | pairs
    · rw [hm] at h
      simp [Bind.bind, Except.bind] at h
    · rw [hm] at h
      simp only [Bind.bind, Except.bind] at h
      rcases hk : objKeys crses with _ | ⟨k, ks⟩
      · rw [hk] at h
        exact absurd h (by simp)
      · rw [hk] at h
        rw [Except.ok.injEq] at h
        exact ⟨pairs, rfl, k, ks, rfl, h.symm⟩

/-- C2 (amended): a returned candidate of `findBestCRS` scores (by the
projected-fit-predict-RMSE pipeline) no worse than every candidate, and
every key strictly after it in `Object.keys` order scores strictly worse —
i.e. exact ties are resolved in favor of the LAST minimizer in iteration
order, not the first. -/
theorem c2_findBestCRS_min_last_tiebreak (proj : String → Point → Point)
    (geo loc : List Point) (crses : List String) (mode yax : String) (r : String)
    (h : findBestCRS proj geo loc crses mode yax = .ok r) :
    ∃ m : ℝ, crsStep proj geo loc mode yax r = .ok m ∧
      (∀ c ∈ crses, ∃ v, crsStep proj geo loc mode yax c = .ok v ∧ m ≤ v) ∧
      (∃ l1 l2, objKeys crses = l1 ++ r :: l2 ∧
        ∀ c ∈ l2, ∀ v, crsStep proj geo loc mode yax c = .ok v → m < v) := by
  obtain ⟨pairs, hm, k, ks, hk, hr⟩ := findBestCRS_ok_components _ _ _ _ _ _ _ h
  have hstep : ∀ c ∈ crses,
      crsStep proj geo loc mode yax c = .ok (lookupScore pairs c) :=
    mapM_lookup_spec _ _ _ hm
  have hkeys : ∀ c, c ∈ k :: ks → c ∈ crses := by
    intro c hc
    rw [← mem_objKeys crses c, hk]
    exact hc
  obtain ⟨r', hr', hcase⟩ := foldl_pick_spec (lookupScore pairs) ks k
  rw [hr'] at hr
  subst hr
  rcases hcase with ⟨req, hall⟩ | ⟨l1, l2, hsplit, hle, hstrict, hallle⟩
  · subst req
    refine ⟨lookupScore pairs r, hstep r (hkeys r (by simp)), ?_, [], ks, ?_, ?_⟩
    · intro c hc
      refine ⟨lookupScore pairs c, hstep c hc, ?_⟩
      have hck : c ∈ r :: ks := by
        rw [← hk, mem_objKeys]
        exact hc
      rcases List.mem_cons.mp hck with rfl | hc'
      · exact le_rfl
      · exact le_of_lt (hall c hc')
    · rw [hk]
      simp
    · intro c hc v hv
      have := hstep c (hkeys c (List.mem_cons_of_mem r hc))
      rw [this, Except.ok.injEq] at hv
      rw [← hv]
      exact hall c hc
  · have hrmem : r ∈ k :: ks := by
      rw [hsplit]
      simp
    refine ⟨lookupScore pairs r, hstep r (hkeys r hrmem), ?_, k :: l1, l2, ?_, ?_⟩
    · intro c hc
      refine ⟨lookupScore pairs c, hstep c hc, ?_⟩
      have hck : c ∈ k :: ks := by
        rw [← hk, mem_objKeys]
        exact hc
      rcases List.mem_cons.mp hck with rfl | hc'
      · exact hle
      · exact hallle c hc'
    · rw [hk, hsplit, List.cons_append]
    · intro c hc v hv
      have hcks : c ∈ ks := by
        rw [hsplit]
        exact List.mem_append_right l1 (List.mem_cons_of_mem r hc)
      have := hstep c (hkeys c (List.mem_cons_of_mem k hcks))
      rw [this, Except.ok.injEq] at hv
      rw [← hv]
      exact hstrict c hc

/-- Concrete evaluation: `noshear` mode with `same` Y-axis resolution on the
same points returns the unflipped core fit `(2, 0, 0, 0, 2, 0)`. -/
theorem eval_noshear_same_A :
    computeTransformParams [((0 : ℝ), (0 : ℝ)), (1, 0)] [((0 : ℝ), (0 : ℝ)), (2, 0)]
      "noshear" "same" = .ok ⟨2, 0, 0, 0, 2, 0⟩ := by
  simp only [computeTransformParams]
  rw [if_neg (by norm_num), if_neg (by norm_num), if_neg (by decide), if_neg (by decide),
    if_pos trivial]
  simp only [computeNoShearAsAffine, eval_flipY_A, eval_noshear_core_A, Bind.bind, Except.bind]
  simp

/-- Concrete evaluation: every candidate scores an exact RMSE of zero in the
identity-projection scenario (geographic points `(0,0), (2,0)`, image points
`(0,0), (1,0)`, `noshear`/`same`). -/
theorem eval_crsStep_AB (c : String) :
    crsStep (fun _ q => q) [((0 : ℝ), (0 : ℝ)), (2, 0)] [((0 : ℝ), (0 : ℝ)), (1, 0)]
      "noshear" "same" c = .ok 0 := by
  simp only [crsStep]
  rw [show [((0 : ℝ), (0 : ℝ)), (2, 0)].map ((fun _ q => q) c) = [((0 : ℝ), (0 : ℝ)), (2, 0)]
    from by simp]
  rw [eval_noshear_same_A]
  simp only [Bind.bind, Except.bind]
  rw [show [((0 : ℝ), (0 : ℝ)), (1, 0)].map
      (fun pt => forwardAffine ⟨2, 0, 0, 0, 2, 0⟩ pt) = [((0 : ℝ), (0 : ℝ)), (2, 0)]
    from by norm_num [forwardAffine]]
  simp only [computeRMSE]
  rw [if_neg (by norm_num)]
  norm_num [sumSqDiff, Real.sqrt_zero]

/-- Concrete evaluation: in that scenario with two candidates `"A"`, `"B"`
tying at RMSE zero, `findBestCRS` returns the second candidate. -/
theorem eval_findBestCRS_AB :
    findBestCRS (fun _ q => q) [((0 : ℝ), (0 : ℝ)), (2, 0)] [((0 : ℝ), (0 : ℝ)), (1, 0)]
      ["A", "B"] "noshear" "same" = .ok "B" := by
  simp only [findBestCRS]
  rw [if_neg (by norm_num)]
  rw [show (["A", "B"].mapM (fun c =>
      (crsStep (fun _ q => q) [((0 : ℝ), (0 : ℝ)), (2, 0)] [((0 : ℝ), (0 : ℝ)), (1, 0)]
        "noshear" "same" c).map (fun v => (c, v)))) =
      .ok [("A", (0 : ℝ)), ("B", 0)] from by
    rw [List.mapM_cons, List.mapM_cons, List.mapM_nil, eval_crsStep_AB, eval_crsStep_AB]
    simp [Except.map, Bind.bind, Except.bind, pure, Except.pure]]
  simp only [Bind.bind, Except.bind]
  rw [show objKeys ["A", "B"] = ["A", "B"] from rfl]
  simp only [List.foldl_cons, List.foldl_nil]
  rw [show lookupScore [("A", (0 : ℝ)), ("B", 0)] "A" = 0 from by
      simp [lookupScore, List.lookup_cons],
    show lookupScore [("A", (0 : ℝ)), ("B", 0)] "B" = 0 from by
      simp [lookupScore, List.lookup_cons]]
  rw [if_neg (lt_irrefl 0)]

/-- C2 counterexample: in the identity-projection scenario both candidates
attain exactly the minimal RMSE (zero), and `findBestCRS` returns `"B"`, the
SECOND candidate in iteration order — refuting the claim that exact ties go
to the first candidate. -/
theorem c2_counterexample :
    findBestCRS (fun _ q => q) [((0 : ℝ), (0 : ℝ)), (2, 0)] [((0 : ℝ), (0 : ℝ)), (1, 0)]
      ["A", "B"] "noshear" "same" = .ok "B" ∧
    crsStep (fun _ q => q) [((0 : ℝ), (0 : ℝ)), (2, 0)] [((0 : ℝ), (0 : ℝ)), (1, 0)]
      "noshear" "same" "A" =
      crsStep (fun _ q => q) [((0 : ℝ), (0 : ℝ)), (2, 0)] [((0 : ℝ), (0 : ℝ)), (1, 0)]
        "noshear" "same" "B" ∧
    "B" ≠ "A" :=
  ⟨eval_findBestCRS_AB, by rw [eval_crsStep_AB, eval_crsStep_AB], by decide⟩

/-- Witness for C2 (amended) at concrete input: the identity-projection
scenario, where the returned `"B"` is the last minimizer. -/
theorem c2_witness :
    ∃ m : ℝ, crsStep (fun _ q => q) [((0 : ℝ), (0 : ℝ)), (2, 0)] [((0 : ℝ), (0 : ℝ)), (1, 0)]
        "noshear" "same" "B" = .ok m ∧
      (∀ c ∈ ["A", "B"], ∃ v, crsStep (fun _ q => q)
        [((0 : ℝ), (0 : ℝ)), (2, 0)] [((0 : ℝ), (0 : ℝ)), (1, 0)]
        "noshear" "same" c = .ok v ∧ m ≤ v) ∧
      (∃ l1 l2, objKeys ["A", "B"] = l1 ++ "B" :: l2 ∧
        ∀ c ∈ l2, ∀ v, crsStep (fun _ q => q)
          [((0 : ℝ), (0 : ℝ)), (2, 0)] [((0 : ℝ), (0 : ℝ)), (1, 0)]
          "noshear" "same" c = .ok v → m < v) :=
  c2_findBestCRS_min_last_tiebreak _ _ _ _ _ _ _ eval_findBestCRS_AB

/-- Concrete evaluation: the similarity core fit of image points
`(0,0), (1,0)` against identical map points is the identity
`(1, 0, 0, 0, 1, 0)` (here `θ = atan2(0, 1/2) = 0` and `s = 1`). -/
theorem eval_similar_core_B :
    computeSimilarCore [((0 : ℝ), (0 : ℝ)), (1, 0)] [((0 : ℝ), (0 : ℝ)), (1, 0)] =
      .ok ⟨1, 0, 0, 0, 1, 0⟩ := by
  have h0 : atan2 0 (1 / 2 : ℝ) = 0 := by
    rw [atan2, Complex.arg_eq_zero_iff]
    constructor <;> norm_num
  have hsqrt : Real.sqrt 4 = 2 := by
    rw [show (4 : ℝ) = 2 ^ 2 by norm_num, Real.sqrt_sq (by norm_num : (0:ℝ) ≤ 2)]
  simp only [computeSimilarCore]
  norm_num [epsTol, abs_lt, h0, hsqrt, Real.cos_zero, Real.sin_zero]

/-- Concrete evaluation: `similar` mode with `same` Y-axis resolution on
those points returns the identity fit. -/
theorem eval_similar_same_B :
    computeTransformParams [((0 : ℝ), (0 : ℝ)), (1, 0)] [((0 : ℝ), (0 : ℝ)), (1, 0)]
      "similar" "same" = .ok ⟨1, 0, 0, 0, 1, 0⟩ := by
  simp only [computeTransformParams]
  rw [if_neg (by norm_num), if_neg (by norm_num), if_neg (by decide), if_pos trivial]
  simp only [computeSimilarAsAffine, eval_flipY_A, eval_similar_core_B, Bind.bind, Except.bind]
  simp

/-- Witness for C6 at concrete input: the `similar`/`same` call above. -/
theorem c6_witness :
    ∃ s θ, 0 ≤ s ∧ (⟨1, 0, 0, 0, 1, 0⟩ : AffineParams).A = s * Real.cos θ ∧
      (⟨1, 0, 0, 0, 1, 0⟩ : AffineParams).B = -(s * Real.sin θ) ∧
      (⟨1, 0, 0, 0, 1, 0⟩ : AffineParams).D = s * Real.sin θ ∧
      (⟨1, 0, 0, 0, 1, 0⟩ : AffineParams).E = s * Real.cos θ ∧
      (⟨1, 0, 0, 0, 1, 0⟩ : AffineParams).A = (⟨1, 0, 0, 0, 1, 0⟩ : AffineParams).E ∧
      (⟨1, 0, 0, 0, 1, 0⟩ : AffineParams).B = -(⟨1, 0, 0, 0, 1, 0⟩ : AffineParams).D ∧
      (⟨1, 0, 0, 0, 1, 0⟩ : AffineParams).A * (⟨1, 0, 0, 0, 1, 0⟩ : AffineParams).E -
        (⟨1, 0, 0, 0, 1, 0⟩ : AffineParams).B * (⟨1, 0, 0, 0, 1, 0⟩ : AffineParams).D = s ^ 2 ∧
      0 ≤ (⟨1, 0, 0, 0, 1, 0⟩ : AffineParams).A * (⟨1, 0, 0, 0, 1, 0⟩ : AffineParams).E -
        (⟨1, 0, 0, 0, 1, 0⟩ : AffineParams).B * (⟨1, 0, 0, 0, 1, 0⟩ : AffineParams).D :=
  c6_similar_same_form _ _ _ eval_similar_same_B

end MaplatAffine
